import Mathlib

/-!
Shallow embedding of `src/global_profile.c` (x86-MMU-Profiler): the process
registry (a singly linked list of `struct process`), the eligibility/update
protocol `update_process_stats`, the merge step `add_pid_to_list`, the
staleness prune `remove_expired_processes`, hint emission (`syscall(325, ...)`)
and the weight-based candidate scan `update_candidate_process`.

Modelling decisions, all taken from the source:
* the linked list is a `List process`; the intrusive `next` pointer disappears;
* the external collaborators `update_thp_usage`, `update_translation_overhead`
  and `malloc` are an oracle (`MetricsAdapter`) whose refresh calls return
  `Option` results (`none` models the C failure codes `-1` / nonzero / `NULL`);
  on a failed refresh the record's fields are retained;
* C integer fields (`pid`, `anon_size`, `anon_thp`) are `ℤ`, the unsigned
  counter `current_timestamp` is `ℕ`, the `double overhead` is `ℚ`, and the
  C cast `(int)x` of a double is truncation toward zero;
* `(proc->anon_size - proc->anon_thp)/1024` is C integer division of `int`
  operands (the fields are printed with `%d` in `log_process_info`), i.e.
  truncation toward zero: `Int.tdiv`;
* `ELIGIBILITY_THRESHOLD` and `IS_CONSIDERABLE` are configuration constants
  from a header that is not part of the core source; they are parameters.
-/

/-- One `struct process` node (without the intrusive `next` pointer). -/
structure process where
  pid : ℤ
  timestamp : ℕ
  anon_size : ℤ
  anon_thp : ℤ
  overhead : ℚ
  skip : Bool
deriving DecidableEq

/-- Truncation toward zero: the semantics of the C cast `(int)x` on a double. -/
def ratTrunc (q : ℚ) : ℤ := if 0 ≤ q then ⌊q⌋ else ⌈q⌉

/-- The hint value `max(1, (int)proc->overhead)` passed to `syscall(325, pid, ...)`. -/
def hintVal (q : ℚ) : ℤ := max 1 (ratTrunc q)

/-- The external collaborators of one tick: `update_thp_usage` (returns the
refreshed `(anon_size, anon_thp)` or fails), `update_translation_overhead`
(returns the refreshed `overhead` or fails) and `malloc` (may fail). -/
structure MetricsAdapter where
  thp : ℤ → Option (ℤ × ℤ)
  ovh : ℤ → Option ℚ
  allocOk : ℤ → Bool

/-- A freshly `malloc`ed record.  Every field that the success path of
`add_pid_to_list` can expose is overwritten by `update_process_stats`
before the record is inserted, so the initial values are immaterial. -/
def initProc : process := ⟨0, 0, 0, 0, 0, false⟩

/-- The C function `update_process_stats(pid, proc)`: stamp `pid` and `timestamp`, refresh the
huge-page stats, check `anon_size > ELIGIBILITY_THRESHOLD`, refresh the
translation overhead; on full success clear `skip` and return `true`,
otherwise set `skip` and return `false`. -/
def update_process_stats (ELIGIBILITY_THRESHOLD : ℤ) (pid : ℤ) (now : ℕ)
    (thpRes : Option (ℤ × ℤ)) (ovhRes : Option ℚ) (proc : process) :
    Bool × process :=
  let p1 := { proc with pid := pid, timestamp := now }
  match thpRes with
  | none => (false, { p1 with skip := true })
  | some st =>
    let p2 := { p1 with anon_size := st.1, anon_thp := st.2 }
    if ELIGIBILITY_THRESHOLD < p2.anon_size then
      match ovhRes with
      | none => (false, { p2 with skip := true })
      | some ov => (true, { p2 with overhead := ov, skip := false })
    else
      (false, { p2 with skip := true })

/-- In-place update of the first list node whose `pid` matches (the node the
`while` loop of `add_pid_to_list` stops at). -/
def updateFirst (pid : ℤ) (upd : process) : List process → List process
  | [] => []
  | r :: rs => if r.pid == pid then upd :: rs else r :: updateFirst pid upd rs

/-- The C function `add_pid_to_list(pid, &head)`: search the list for `pid`; if found, update
its stats in place and emit one hint; if absent, allocate (may fail), run the
protocol on the fresh record, and on success insert it at the head and emit
the one-time hint `1000` followed by the overhead hint.  The second component
collects the `(pid, value)` pairs passed to `syscall(325, ...)`, in order. -/
def add_pid_to_list (A : MetricsAdapter) (ELIGIBILITY_THRESHOLD : ℤ)
    (now : ℕ) (pid : ℤ) (l : List process) :
    List process × List (ℤ × ℤ) :=
  match l.find? (fun r => r.pid == pid) with
  | some proc =>
    let upd := (update_process_stats ELIGIBILITY_THRESHOLD pid now
      (A.thp pid) (A.ovh pid) proc).2
    (updateFirst pid upd l, [(pid, hintVal upd.overhead)])
  | none =>
    if A.allocOk pid then
      let res := update_process_stats ELIGIBILITY_THRESHOLD pid now
        (A.thp pid) (A.ovh pid) initProc
      if res.1 then
        (res.2 :: l, [(pid, 1000), (pid, hintVal res.2.overhead)])
      else
        (l, [])
    else
      (l, [])

/-- The C function `remove_expired_processes(&head)`: unlink and free every node whose
`timestamp < current_timestamp`. -/
def remove_expired_processes (now : ℕ) : List process → List process
  | [] => []
  | r :: rs =>
    if r.timestamp < now then remove_expired_processes now rs
    else r :: remove_expired_processes now rs

/-- The merge phase of one tick: `add_pid_to_list` for every PID read from the
process enumeration, in order. -/
def mergeTick (A : MetricsAdapter) (ELIGIBILITY_THRESHOLD : ℤ) (now : ℕ)
    (pids : List ℤ) (l : List process) : List process :=
  pids.foldl (fun s p => (add_pid_to_list A ELIGIBILITY_THRESHOLD now p s).1) l

/-- One full tick of `profile_forever` as far as the registry is concerned:
merge all observed PIDs, then prune; the clock advances afterwards. -/
def processTick (A : MetricsAdapter) (ELIGIBILITY_THRESHOLD : ℤ) (now : ℕ)
    (pids : List ℤ) (l : List process) : List process :=
  remove_expired_processes now (mergeTick A ELIGIBILITY_THRESHOLD now pids l)

/-- Any number of ticks of `profile_forever`: each tick consumes an adapter
(its metric refresh outcomes) and an observed PID list, and the clock is
incremented once the tick completes (`current_timestamp += 1`). -/
def runTicks (ELIGIBILITY_THRESHOLD : ℤ) :
    List (MetricsAdapter × List ℤ) → ℕ → List process → List process
  | [], _, l => l
  | t :: rest, now, l =>
    runTicks ELIGIBILITY_THRESHOLD rest (now + 1)
      (processTick t.1 ELIGIBILITY_THRESHOLD now t.2 l)

/-- The PIDs of the registry, in list order. -/
def pidsOf (l : List process) : List ℤ := l.map (fun r => r.pid)

/-- The C function `get_process_weight(proc)`: `rss = (anon_size - anon_thp)/1024` with C
truncating integer division; `-1` when `rss <= 0`, else `(overhead/rss)*1024`. -/
def get_process_weight (proc : process) : ℚ :=
  let rss : ℤ := Int.tdiv (proc.anon_size - proc.anon_thp) 1024
  if rss ≤ 0 then -1 else (proc.overhead / (rss : ℚ)) * 1024

/-- A record the candidate scan does not `continue` past:
`!(curr->skip || curr->overhead < IS_CONSIDERABLE)`. -/
def isCandidate (IS_CONSIDERABLE : ℚ) (r : process) : Prop :=
  r.skip = false ∧ IS_CONSIDERABLE ≤ r.overhead

instance (IC : ℚ) (r : process) : Decidable (isCandidate IC r) := by
  unfold isCandidate; infer_instance

/-- The loop of `update_candidate_process`, carrying `(best, best_weight)`. -/
def selGo (IS_CONSIDERABLE : ℚ) :
    List process → Option process × ℚ → Option process × ℚ
  | [], acc => acc
  | curr :: rest, acc =>
    if curr.skip = true ∨ curr.overhead < IS_CONSIDERABLE then
      selGo IS_CONSIDERABLE rest acc
    else
      let w := get_process_weight curr
      if acc.2 < w then selGo IS_CONSIDERABLE rest (some curr, w)
      else selGo IS_CONSIDERABLE rest acc

/-- The C function `update_candidate_process(head)`: scan the registry with
`best = NULL, best_weight = 0` and return the best candidate (if any). -/
def update_candidate_process (IS_CONSIDERABLE : ℚ) (l : List process) :
    Option process :=
  (selGo IS_CONSIDERABLE l (none, 0)).1

/-- An adapter whose refreshes always fail and whose allocation fails:
used to instantiate theorems at concrete inputs. -/
def stubAdapter : MetricsAdapter := ⟨fun _ => none, fun _ => none, fun _ => false⟩

/-- An adapter whose refreshes always succeed (with `anon_size = 20000`,
`anon_thp = 0`, `overhead = 5`) and whose allocation succeeds: used to
instantiate theorems at concrete inputs. -/
def okAdapter : MetricsAdapter :=
  ⟨fun _ => some (20000, 0), fun _ => some 5, fun _ => true⟩

/-! ### Helper lemmas: the eligibility/update protocol and hint values -/

/-- Truncation toward zero and flooring agree once clamped below by `1`. -/
lemma hintVal_eq_max_one_floor (q : ℚ) : hintVal q = max 1 ⌊q⌋ := by
  unfold hintVal ratTrunc
  split
  · rfl
  · rename_i h
    push_neg at h
    have h1 : ⌈q⌉ ≤ (0 : ℤ) := Int.ceil_le.mpr (by exact_mod_cast h.le)
    have h2 : ⌊q⌋ ≤ (0 : ℤ) := Int.floor_nonpos h.le
    omega

lemma one_le_hintVal (q : ℚ) : 1 ≤ hintVal q := le_max_left _ _

lemma ups_pid (ET p : ℤ) (now : ℕ) (a : Option (ℤ × ℤ)) (b : Option ℚ)
    (proc : process) : ((update_process_stats ET p now a b proc).2).pid = p := by
  cases a <;> cases b <;> simp only [update_process_stats] <;>
    first
    | rfl
    | (split <;> rfl)

lemma ups_timestamp (ET p : ℤ) (now : ℕ) (a : Option (ℤ × ℤ)) (b : Option ℚ)
    (proc : process) :
    ((update_process_stats ET p now a b proc).2).timestamp = now := by
  cases a <;> cases b <;> simp only [update_process_stats] <;>
    first
    | rfl
    | (split <;> rfl)

lemma ups_skip_eq (ET p : ℤ) (now : ℕ) (a : Option (ℤ × ℤ)) (b : Option ℚ)
    (proc : process) :
    ((update_process_stats ET p now a b proc).2).skip =
      !((update_process_stats ET p now a b proc).1) := by
  cases a <;> cases b <;> simp only [update_process_stats] <;>
    first
    | rfl
    | (split <;> rfl)

lemma ups_anon_size (ET p : ℤ) (now : ℕ) (sz tp : ℤ) (b : Option ℚ)
    (proc : process) :
    ((update_process_stats ET p now (some (sz, tp)) b proc).2).anon_size = sz := by
  cases b <;> simp only [update_process_stats] <;>
    first
    | rfl
    | (split <;> rfl)

lemma ups_true_iff (ET p : ℤ) (now : ℕ) (a : Option (ℤ × ℤ)) (b : Option ℚ)
    (proc : process) :
    (update_process_stats ET p now a b proc).1 = true ↔
      ((∃ sz tp, a = some (sz, tp) ∧ ET < sz) ∧ b ≠ none) := by
  cases a with
  | none => simp [update_process_stats]
  | some st =>
    obtain ⟨sz, tp⟩ := st
    cases b with
    | none => simp [update_process_stats]
    | some ov =>
      by_cases h : ET < sz <;> simp [update_process_stats, h]

lemma ups_skip_false_anon (ET p : ℤ) (now : ℕ) (a : Option (ℤ × ℤ))
    (b : Option ℚ) (proc : process)
    (h : ((update_process_stats ET p now a b proc).2).skip = false) :
    ET < ((update_process_stats ET p now a b proc).2).anon_size := by
  have hb := ups_skip_eq ET p now a b proc
  rw [h] at hb
  have hfst : (update_process_stats ET p now a b proc).1 = true := by
    cases hf : (update_process_stats ET p now a b proc).1
    · rw [hf] at hb
      simp at hb
    · rfl
  obtain ⟨⟨sz, tp, ha, hlt⟩, -⟩ := (ups_true_iff ET p now a b proc).mp hfst
  subst ha
  rw [ups_anon_size]
  exact hlt

/-! ### Helper lemmas: registry list surgery -/

lemma find?_pid_eq_none (p : ℤ) (l : List process) :
    l.find? (fun r => r.pid == p) = none ↔ p ∉ pidsOf l := by
  rw [List.find?_eq_none]
  constructor
  · intro h hmem
    obtain ⟨r, hr, hrp⟩ := List.mem_map.mp hmem
    exact h r hr (by simp [hrp])
  · intro h r hr hbeq
    exact h (List.mem_map.mpr ⟨r, hr, by simpa using hbeq⟩)

lemma mem_updateFirst (p : ℤ) (upd r : process) (l : List process)
    (h : r ∈ updateFirst p upd l) : r = upd ∨ r ∈ l := by
  induction l with
  | nil => simp [updateFirst] at h
  | cons x xs ih =>
    unfold updateFirst at h
    split at h
    · rcases List.mem_cons.mp h with h1 | h1
      · exact Or.inl h1
      · exact Or.inr (List.mem_cons_of_mem _ h1)
    · rcases List.mem_cons.mp h with h1 | h1
      · exact Or.inr (h1 ▸ List.mem_cons_self _ _)
      · rcases ih h1 with h2 | h2
        · exact Or.inl h2
        · exact Or.inr (List.mem_cons_of_mem _ h2)

lemma pidsOf_updateFirst (p : ℤ) (upd : process) (hp : upd.pid = p)
    (l : List process) : pidsOf (updateFirst p upd l) = pidsOf l := by
  induction l with
  | nil => rfl
  | cons x xs ih =>
    unfold updateFirst
    split
    · rename_i hx
      have hx' : x.pid = p := by simpa using hx
      simp [pidsOf, hp, hx']
    · simpa [pidsOf] using ih

/-- The three possible shapes of the registry after `add_pid_to_list`. -/
lemma add_fst_cases (A : MetricsAdapter) (ET : ℤ) (now : ℕ) (p : ℤ)
    (l : List process) :
    (add_pid_to_list A ET now p l).1 = l ∨
    (∃ upd, upd.pid = p ∧ upd.timestamp = now ∧
      (add_pid_to_list A ET now p l).1 = updateFirst p upd l) ∨
    (∃ newr, newr.pid = p ∧ newr.timestamp = now ∧ (∀ r ∈ l, r.pid ≠ p) ∧
      (add_pid_to_list A ET now p l).1 = newr :: l) := by
  unfold add_pid_to_list
  cases hf : l.find? (fun r => r.pid == p) with
  | some r0 =>
    refine Or.inr (Or.inl ⟨_, ups_pid _ _ _ _ _ _, ups_timestamp _ _ _ _ _ _, rfl⟩)
  | none =>
    have habs : ∀ r ∈ l, r.pid ≠ p := by
      intro r hr
      have := (find?_pid_eq_none p l).mp hf
      intro hrp
      exact this (by simpa [pidsOf] using ⟨r, hr, hrp⟩)
    cases hA : A.allocOk p with
    | false => simp
    | true =>
      cases hres : (update_process_stats ET p now (A.thp p) (A.ovh p) initProc).1 with
      | false => simp [hres]
      | true =>
        refine Or.inr (Or.inr
          ⟨(update_process_stats ET p now (A.thp p) (A.ovh p) initProc).2,
            ups_pid _ _ _ _ _ _, ups_timestamp _ _ _ _ _ _, habs, ?_⟩)
        simp [hres]

lemma add_mem (A : MetricsAdapter) (ET : ℤ) (now : ℕ) (p : ℤ)
    (l : List process) (r : process)
    (h : r ∈ (add_pid_to_list A ET now p l).1) :
    r ∈ l ∨ (r.pid = p ∧ r.timestamp = now) := by
  rcases add_fst_cases A ET now p l with hc | ⟨upd, hp, ht, hc⟩ | ⟨newr, hp, ht, _, hc⟩
  · exact Or.inl (hc ▸ h)
  · rw [hc] at h
    rcases mem_updateFirst p upd r l h with h1 | h1
    · exact Or.inr ⟨h1 ▸ hp, h1 ▸ ht⟩
    · exact Or.inl h1
  · rw [hc] at h
    rcases List.mem_cons.mp h with h1 | h1
    · exact Or.inr ⟨h1 ▸ hp, h1 ▸ ht⟩
    · exact Or.inl h1

lemma add_pids (A : MetricsAdapter) (ET : ℤ) (now : ℕ) (p : ℤ)
    (l : List process) :
    pidsOf (add_pid_to_list A ET now p l).1 = pidsOf l ∨
    (p ∉ pidsOf l ∧ pidsOf (add_pid_to_list A ET now p l).1 = p :: pidsOf l) := by
  rcases add_fst_cases A ET now p l with hc | ⟨upd, hp, _, hc⟩ | ⟨newr, hp, _, habs, hc⟩
  · exact Or.inl (by rw [hc])
  · exact Or.inl (by rw [hc, pidsOf_updateFirst p upd hp])
  · refine Or.inr ⟨?_, by simp [hc, pidsOf, hp]⟩
    intro hmem
    obtain ⟨r, hr, hrp⟩ := by simpa [pidsOf] using hmem
    exact habs r hr hrp

lemma add_nodup (A : MetricsAdapter) (ET : ℤ) (now : ℕ) (p : ℤ)
    (l : List process) (h : (pidsOf l).Nodup) :
    (pidsOf (add_pid_to_list A ET now p l).1).Nodup := by
  rcases add_pids A ET now p l with hc | ⟨hnm, hc⟩
  · rwa [hc]
  · rw [hc]
    exact List.Nodup.cons hnm h

lemma add_pids_present (A : MetricsAdapter) (ET : ℤ) (now : ℕ) (p : ℤ)
    (l : List process) (h : p ∈ pidsOf l) :
    pidsOf (add_pid_to_list A ET now p l).1 = pidsOf l := by
  unfold add_pid_to_list
  cases hf : l.find? (fun r => r.pid == p) with
  | none => exact absurd h ((find?_pid_eq_none p l).mp hf)
  | some r0 => exact pidsOf_updateFirst p _ (ups_pid _ _ _ _ _ _) l

/-! ### Helper lemmas: merge and prune -/

lemma mergeTick_cons (A : MetricsAdapter) (ET : ℤ) (now : ℕ) (p : ℤ)
    (ps : List ℤ) (l : List process) :
    mergeTick A ET now (p :: ps) l =
      mergeTick A ET now ps (add_pid_to_list A ET now p l).1 := rfl

lemma merge_mem (A : MetricsAdapter) (ET : ℤ) (now : ℕ) (pids : List ℤ)
    (l : List process) (r : process) (h : r ∈ mergeTick A ET now pids l) :
    r ∈ l ∨ r.timestamp = now := by
  induction pids generalizing l with
  | nil => exact Or.inl h
  | cons p ps ih =>
    rw [mergeTick_cons] at h
    rcases ih ((add_pid_to_list A ET now p l).1) h with h1 | h1
    · rcases add_mem A ET now p l r h1 with h2 | ⟨_, h2⟩
      · exact Or.inl h2
      · exact Or.inr h2
    · exact Or.inr h1

lemma merge_mem_pid_notin (A : MetricsAdapter) (ET : ℤ) (now : ℕ)
    (pids : List ℤ) (l : List process) (r : process)
    (h : r ∈ mergeTick A ET now pids l) (hnp : r.pid ∉ pids) : r ∈ l := by
  induction pids generalizing l with
  | nil => exact h
  | cons p ps ih =>
    rw [mergeTick_cons] at h
    have h1 : r ∈ (add_pid_to_list A ET now p l).1 :=
      ih ((add_pid_to_list A ET now p l).1) h (fun hm => hnp (List.mem_cons_of_mem _ hm))
    rcases add_mem A ET now p l r h1 with h2 | ⟨h2, _⟩
    · exact h2
    · exact absurd (h2 ▸ List.mem_cons_self _ _) hnp

lemma merge_nodup (A : MetricsAdapter) (ET : ℤ) (now : ℕ) (pids : List ℤ)
    (l : List process) (h : (pidsOf l).Nodup) :
    (pidsOf (mergeTick A ET now pids l)).Nodup := by
  induction pids generalizing l with
  | nil => exact h
  | cons p ps ih =>
    rw [mergeTick_cons]
    exact ih _ (add_nodup A ET now p l h)

lemma remove_eq_filter (now : ℕ) (m : List process) :
    remove_expired_processes now m =
      m.filter (fun r => decide (¬ r.timestamp < now)) := by
  induction m with
  | nil => rfl
  | cons x xs ih =>
    unfold remove_expired_processes
    rw [List.filter_cons]
    by_cases hx : x.timestamp < now
    · simp [hx, ih]
    · simp [hx, ih, Nat.not_lt.mp hx]

lemma mem_remove_iff (now : ℕ) (m : List process) (r : process) :
    r ∈ remove_expired_processes now m ↔ r ∈ m ∧ ¬ r.timestamp < now := by
  rw [remove_eq_filter]
  simp [List.mem_filter]

lemma remove_sublist (now : ℕ) (m : List process) :
    (remove_expired_processes now m).Sublist m := by
  rw [remove_eq_filter]
  exact List.filter_sublist m

lemma processTick_nodup (A : MetricsAdapter) (ET : ℤ) (now : ℕ)
    (pids : List ℤ) (l : List process) (h : (pidsOf l).Nodup) :
    (pidsOf (processTick A ET now pids l)).Nodup := by
  unfold processTick
  have hsub : (pidsOf (remove_expired_processes now
      (mergeTick A ET now pids l))).Sublist (pidsOf (mergeTick A ET now pids l)) :=
    (remove_sublist now _).map _
  exact (merge_nodup A ET now pids l h).sublist hsub

lemma runTicks_nodup (ET : ℤ) (ticks : List (MetricsAdapter × List ℤ))
    (now : ℕ) (l : List process) (h : (pidsOf l).Nodup) :
    (pidsOf (runTicks ET ticks now l)).Nodup := by
  induction ticks generalizing now l with
  | nil => exact h
  | cons t ts ih =>
    exact ih (now + 1) _ (processTick_nodup t.1 ET now t.2 l h)

/-! ### Helper lemmas: the candidate scan -/

lemma selGo_cons (IC : ℚ) (curr : process) (rest : List process)
    (acc : Option process × ℚ) :
    selGo IC (curr :: rest) acc =
      if curr.skip = true ∨ curr.overhead < IC then selGo IC rest acc
      else if acc.2 < get_process_weight curr then
        selGo IC rest (some curr, get_process_weight curr)
      else selGo IC rest acc := rfl

lemma not_cond_iff_cand (IC : ℚ) (r : process) :
    ¬(r.skip = true ∨ r.overhead < IC) ↔ isCandidate IC r := by
  simp [isCandidate, not_or, not_lt]

lemma cond_not_cand (IC : ℚ) (r : process)
    (h : r.skip = true ∨ r.overhead < IC) : ¬ isCandidate IC r := by
  intro hc
  rcases h with h1 | h1
  · rw [hc.1] at h1
    exact Bool.false_ne_true h1
  · exact absurd hc.2 (not_le.mpr h1)

lemma selGo_acc_some (IC : ℚ) (l : List process) (a : process) (v : ℚ) :
    ((selGo IC l (some a, v)).1).isSome := by
  induction l generalizing a v with
  | nil => rfl
  | cons curr rest ih =>
    rw [selGo_cons]
    split
    · exact ih a v
    · split
      · exact ih curr _
      · exact ih a v

lemma selGo_mono (IC : ℚ) (l : List process) (o : Option process) (v : ℚ) :
    v ≤ (selGo IC l (o, v)).2 := by
  induction l generalizing o v with
  | nil => exact le_refl v
  | cons curr rest ih =>
    rw [selGo_cons]
    split
    · exact ih o v
    · split
      · rename_i hlt
        exact le_trans (le_of_lt hlt) (ih (some curr) _)
      · exact ih o v

lemma selGo_none_iff (IC : ℚ) (l : List process) (v : ℚ) :
    (selGo IC l (none, v)).1 = none ↔
      ∀ r ∈ l, isCandidate IC r → get_process_weight r ≤ v := by
  induction l generalizing v with
  | nil => simp [selGo]
  | cons curr rest ih =>
    rw [selGo_cons]
    by_cases hcond : curr.skip = true ∨ curr.overhead < IC
    · rw [if_pos hcond, ih v]
      constructor
      · intro h r hr hc
        rcases List.mem_cons.mp hr with h1 | h1
        · exact absurd hc (h1 ▸ cond_not_cand IC curr hcond)
        · exact h r h1 hc
      · intro h r hr hc
        exact h r (List.mem_cons_of_mem _ hr) hc
    · have hcand : isCandidate IC curr := (not_cond_iff_cand IC curr).mp hcond
      rw [if_neg hcond]
      by_cases hlt : v < get_process_weight curr
      · rw [if_pos hlt]
        constructor
        · intro h
          have := selGo_acc_some IC rest curr (get_process_weight curr)
          rw [h] at this
          exact absurd this (by simp)
        · intro h
          exact absurd (h curr (List.mem_cons_self _ _) hcand) (not_le.mpr hlt)
      · rw [if_neg hlt, ih v]
        constructor
        · intro h r hr hc
          rcases List.mem_cons.mp hr with h1 | h1
          · exact h1 ▸ not_lt.mp hlt
          · exact h r h1 hc
        · intro h r hr hc
          exact h r (List.mem_cons_of_mem _ hr) hc

lemma selGo_bound (IC : ℚ) (l : List process) (o : Option process) (v : ℚ) :
    ∀ r ∈ l, isCandidate IC r → get_process_weight r ≤ (selGo IC l (o, v)).2 := by
  induction l generalizing o v with
  | nil => intro r hr; exact absurd hr (List.not_mem_nil r)
  | cons curr rest ih =>
    intro r hr hc
    rw [selGo_cons]
    by_cases hcond : curr.skip = true ∨ curr.overhead < IC
    · rw [if_pos hcond]
      rcases List.mem_cons.mp hr with h1 | h1
      · exact absurd hc (h1 ▸ cond_not_cand IC curr hcond)
      · exact ih o v r h1 hc
    · rw [if_neg hcond]
      by_cases hlt : v < get_process_weight curr
      · rw [if_pos hlt]
        rcases List.mem_cons.mp hr with h1 | h1
        · exact h1 ▸ selGo_mono IC rest (some curr) (get_process_weight curr)
        · exact ih (some curr) _ r h1 hc
      · rw [if_neg hlt]
        rcases List.mem_cons.mp hr with h1 | h1
        · exact le_trans (h1 ▸ not_lt.mp hlt) (selGo_mono IC rest o v)
        · exact ih o v r h1 hc

/-- Full characterization of a successful scan: either the accumulator's best
survives untouched, or the result is the first candidate attaining the
running maximum, every earlier candidate weighing strictly less and every
later one weighing no more. -/
lemma selGo_some_spec (IC : ℚ) (l : List process) (o : Option process) (v : ℚ)
    (b : process) (h : (selGo IC l (o, v)).1 = some b) :
    (o = some b ∧ (selGo IC l (o, v)).2 = v ∧
      ∀ r ∈ l, isCandidate IC r → get_process_weight r ≤ v) ∨
    (∃ l1 l2, l = l1 ++ b :: l2 ∧ isCandidate IC b ∧ v < get_process_weight b ∧
      (selGo IC l (o, v)).2 = get_process_weight b ∧
      (∀ r ∈ l1, isCandidate IC r → get_process_weight r < get_process_weight b) ∧
      (∀ r ∈ l2, isCandidate IC r → get_process_weight r ≤ get_process_weight b)) := by
  induction l generalizing o v with
  | nil =>
    left
    exact ⟨h, rfl, by simp⟩
  | cons curr rest ih =>
    rw [selGo_cons] at h ⊢
    by_cases hcond : curr.skip = true ∨ curr.overhead < IC
    · rw [if_pos hcond] at h ⊢
      have hnc : ¬ isCandidate IC curr := cond_not_cand IC curr hcond
      rcases ih o v h with ⟨ho, h2, h3⟩ | ⟨l1, l2, hl, hcb, hv, h2, hl1, hl2⟩
      · left
        refine ⟨ho, h2, ?_⟩
        intro r hr hc
        rcases List.mem_cons.mp hr with h1 | h1
        · exact absurd hc (h1 ▸ hnc)
        · exact h3 r h1 hc
      · right
        refine ⟨curr :: l1, l2, by rw [hl, List.cons_append], hcb, hv, h2, ?_, hl2⟩
        intro r hr hc
        rcases List.mem_cons.mp hr with h1 | h1
        · exact absurd hc (h1 ▸ hnc)
        · exact hl1 r h1 hc
    · have hcand : isCandidate IC curr := (not_cond_iff_cand IC curr).mp hcond
      rw [if_neg hcond] at h ⊢
      by_cases hlt : v < get_process_weight curr
      · rw [if_pos hlt] at h ⊢
        rcases ih (some curr) (get_process_weight curr) h with
          ⟨ho, h2, h3⟩ | ⟨l1, l2, hl, hcb, hv, h2, hl1, hl2⟩
        · right
          have hbc : curr = b := Option.some.inj ho
          subst hbc
          exact ⟨[], rest, rfl, hcand, hlt, h2, by simp, h3⟩
        · right
          refine ⟨curr :: l1, l2, by rw [hl, List.cons_append], hcb, lt_trans hlt hv, h2, ?_, hl2⟩
          intro r hr hc
          rcases List.mem_cons.mp hr with h1 | h1
          · exact h1 ▸ hv
          · exact hl1 r h1 hc
      · rw [if_neg hlt] at h ⊢
        rcases ih o v h with ⟨ho, h2, h3⟩ | ⟨l1, l2, hl, hcb, hv, h2, hl1, hl2⟩
        · left
          refine ⟨ho, h2, ?_⟩
          intro r hr hc
          rcases List.mem_cons.mp hr with h1 | h1
          · exact h1 ▸ not_lt.mp hlt
          · exact h3 r h1 hc
        · right
          refine ⟨curr :: l1, l2, by rw [hl, List.cons_append], hcb, hv, h2, ?_, hl2⟩
          intro r hr hc
          rcases List.mem_cons.mp hr with h1 | h1
          · exact lt_of_le_of_lt (h1 ▸ not_lt.mp hlt) hv
          · exact hl1 r h1 hc

/-! ### Helper lemmas: weights -/

lemma tdiv_1024_nonpos (d : ℤ) (h : d ≤ 0) : Int.tdiv d 1024 ≤ 0 := by
  have h1 : Int.tdiv (-(-d)) 1024 = -(Int.tdiv (-d) 1024) := Int.neg_tdiv (-d) 1024
  rw [neg_neg] at h1
  rw [h1]
  have h2 : 0 ≤ Int.tdiv (-d) 1024 := Int.tdiv_nonneg (by omega) (by norm_num)
  omega

lemma le_of_tdiv_1024_pos (d : ℤ) (h : 0 < Int.tdiv d 1024) : 1024 ≤ d := by
  by_contra hlt
  push_neg at hlt
  rcases le_or_lt d 0 with h0 | h0
  · exact absurd h (not_lt.mpr (tdiv_1024_nonpos d h0))
  · rw [Int.tdiv_eq_ediv (le_of_lt h0) (by norm_num),
      Int.ediv_eq_zero_of_lt (le_of_lt h0) hlt] at h
    exact lt_irrefl 0 h

lemma weight_nonpos_rss (r : process)
    (h : Int.tdiv (r.anon_size - r.anon_thp) 1024 ≤ 0) :
    get_process_weight r = -1 := by
  unfold get_process_weight
  exact if_pos h

lemma weight_pos (r : process)
    (hrss : 0 < Int.tdiv (r.anon_size - r.anon_thp) 1024)
    (hov : 0 < r.overhead) : 0 < get_process_weight r := by
  unfold get_process_weight
  rw [if_neg (not_le.mpr hrss)]
  have hc : (0 : ℚ) < ((Int.tdiv (r.anon_size - r.anon_thp) 1024 : ℤ) : ℚ) := by
    exact_mod_cast hrss
  positivity

/-- A successful scan returns the first candidate attaining the maximal
(strictly positive) weight. -/
lemma sel_some_spec (IC : ℚ) (l : List process) (b : process)
    (h : update_candidate_process IC l = some b) :
    ∃ l1 l2, l = l1 ++ b :: l2 ∧ isCandidate IC b ∧ 0 < get_process_weight b ∧
      (∀ r ∈ l1, isCandidate IC r → get_process_weight r < get_process_weight b) ∧
      (∀ r ∈ l2, isCandidate IC r → get_process_weight r ≤ get_process_weight b) := by
  unfold update_candidate_process at h
  rcases selGo_some_spec IC l none 0 b h with ⟨ho, _⟩ | ⟨l1, l2, hl, hcb, hv, _, hl1, hl2⟩
  · exact absurd ho (by simp)
  · exact ⟨l1, l2, hl, hcb, hv, hl1, hl2⟩

lemma sel_none_iff (IC : ℚ) (l : List process) :
    update_candidate_process IC l = none ↔
      ∀ r ∈ l, isCandidate IC r → get_process_weight r ≤ 0 :=
  selGo_none_iff IC l 0

/-- C1: the eligibility/update protocol returns `true` with `skip = false`
exactly when the huge-page refresh succeeds, the refreshed `anon_size` is
strictly greater than `ELIGIBILITY_THRESHOLD`, and the overhead refresh
succeeds; in every other case it returns `false` and sets `skip = true`.
Moreover `skip = false` after the update forces
`anon_size > ELIGIBILITY_THRESHOLD`, and the candidate scan only ever selects
records with `skip = false`, so a record at or below the threshold never ends
the update with `skip = false` and is never a scoring candidate. -/
theorem C1_eligibility_gate (ET p : ℤ) (now : ℕ) (thpRes : Option (ℤ × ℤ))
    (ovhRes : Option ℚ) (proc : process) :
    (((update_process_stats ET p now thpRes ovhRes proc).1 = true ∧
        (update_process_stats ET p now thpRes ovhRes proc).2.skip = false) ↔
      ((∃ sz tp, thpRes = some (sz, tp) ∧ ET < sz) ∧ ovhRes ≠ none)) ∧
    ((update_process_stats ET p now thpRes ovhRes proc).2.skip =
      !(update_process_stats ET p now thpRes ovhRes proc).1) ∧
    ((update_process_stats ET p now thpRes ovhRes proc).2.skip = false →
      ET < (update_process_stats ET p now thpRes ovhRes proc).2.anon_size) ∧
    (∀ (IC : ℚ) (l : List process) (b : process),
      update_candidate_process IC l = some b → b.skip = false) := by
  refine ⟨⟨fun hp => (ups_true_iff ET p now thpRes ovhRes proc).mp hp.1, ?_⟩,
    ups_skip_eq ET p now thpRes ovhRes proc,
    ups_skip_false_anon ET p now thpRes ovhRes proc, ?_⟩
  · intro hc
    have h1 := (ups_true_iff ET p now thpRes ovhRes proc).mpr hc
    refine ⟨h1, ?_⟩
    rw [ups_skip_eq ET p now thpRes ovhRes proc, h1]
    rfl
  · intro IC l b hsel
    obtain ⟨_, _, _, hcb, _⟩ := sel_some_spec IC l b hsel
    exact hcb.1

/-- C7 counterexample: an observation whose protocol run fails (here both
refreshes are unavailable, so the update returns `false`) still restamps the
record's `last_seen_tick` from 3 to the current clock value 5, contradicting
the claim that a failed update leaves `last_seen_tick` unchanged. -/
theorem C7_counterexample_failed_update_restamps :
    (update_process_stats 10000 7 5 none none ⟨7, 3, 20000, 0, 4, false⟩).1
        = false ∧
    (⟨7, 3, 20000, 0, 4, false⟩ : process).timestamp = 3 ∧
    (update_process_stats 10000 7 5 none none
        ⟨7, 3, 20000, 0, 4, false⟩).2.timestamp = 5 :=
  ⟨rfl, rfl, rfl⟩

/-- C7 (amended): `last_seen_tick` equals the clock value at the time of the
record's most recent update attempt: `update_process_stats` stamps
`timestamp` (and `pid`) unconditionally as its first step, whether or not the
protocol succeeds. -/
theorem C7_amended_unconditional_stamp (ET p : ℤ) (now : ℕ)
    (thpRes : Option (ℤ × ℤ)) (ovhRes : Option ℚ) (proc : process) :
    (update_process_stats ET p now thpRes ovhRes proc).2.timestamp = now ∧
    (update_process_stats ET p now thpRes ovhRes proc).2.pid = p :=
  ⟨ups_timestamp ET p now thpRes ovhRes proc, ups_pid ET p now thpRes ovhRes proc⟩

/-- C10: the scan starts with `best_weight = 0` and replaces it only on a
strictly greater weight, so a selected record always has strictly positive
weight; whenever every candidate has non-positive weight (even if such
candidates exist), the scan selects none. -/
theorem C10_no_nonpositive_weight_selected (IC : ℚ) (l : List process)
    (b : process) (h : update_candidate_process IC l = some b) :
    0 < get_process_weight b ∧
    (∃ r ∈ l, isCandidate IC r ∧ 0 < get_process_weight r) ∧
    (∀ l' : List process,
      (∀ r ∈ l', isCandidate IC r → get_process_weight r ≤ 0) →
      update_candidate_process IC l' = none) := by
  obtain ⟨l1, l2, hl, hcb, hw, _, _⟩ := sel_some_spec IC l b h
  exact ⟨hw, ⟨b, by simp [hl], hcb, hw⟩,
    fun l' hall => (sel_none_iff IC l').mpr hall⟩

/-- C9: malformed metrics (`anon_thp > anon_size`, or any non-positive
difference) make `get_process_weight` take the guarded `-1` branch before any
division happens, and such a record is never the selected candidate: a
selected record always satisfies `anon_thp < anon_size`. -/
theorem C9_malformed_metrics_guarded (IC : ℚ) (l : List process)
    (r b : process) :
    (r.anon_size - r.anon_thp ≤ 0 → get_process_weight r = -1) ∧
    (update_candidate_process IC l = some b → b.anon_thp < b.anon_size) := by
  constructor
  · intro h
    exact weight_nonpos_rss r (tdiv_1024_nonpos _ h)
  · intro hb
    obtain ⟨_, _, _, _, hw, _, _⟩ := sel_some_spec IC l b hb
    by_contra hc
    push_neg at hc
    rw [weight_nonpos_rss b (tdiv_1024_nonpos _ (by omega))] at hw
    norm_num at hw

/-- C8 counterexample: a candidate record with strictly positive
`anon_size - anon_thp = 512` nevertheless gets weight `-1` (the truncating
division `512/1024` yields 0, taking the non-positive branch) and is excluded
from scoring: the scan over just this record selects none.  This refutes
"only records with non-positive `(anon_size - anon_thp)` are excluded". -/
theorem C8_counterexample_positive_diff_excluded :
    (0 : ℤ) < (⟨1, 0, 512, 0, 100, false⟩ : process).anon_size -
        (⟨1, 0, 512, 0, 100, false⟩ : process).anon_thp ∧
    isCandidate 10 ⟨1, 0, 512, 0, 100, false⟩ ∧
    get_process_weight ⟨1, 0, 512, 0, 100, false⟩ = -1 ∧
    update_candidate_process 10 [⟨1, 0, 512, 0, 100, false⟩] = none := by
  refine ⟨by decide, ⟨rfl, by norm_num⟩, ?_, ?_⟩
  · rfl
  · rfl

/-- C8 (amended): a candidate record is assigned the weight
`(overhead / ((anon_size - anon_thp) / 1024)) * 1024` with C truncating
integer division; the record is scored (positive denominator branch) exactly
when that truncated quotient is positive, i.e. when
`anon_size - anon_thp ≥ 1024`; every record with a smaller difference —
including strictly positive differences below 1024 — takes the `-1` branch
and is excluded from scoring.  When `1024` divides the difference the weight
equals the spec's exact form `overhead / ((anon_size - anon_thp)/2^20)`. -/
theorem C8_amended_truncated_weight (r : process)
    (h : 0 < Int.tdiv (r.anon_size - r.anon_thp) 1024) :
    get_process_weight r =
      (r.overhead / ((Int.tdiv (r.anon_size - r.anon_thp) 1024 : ℤ) : ℚ)) * 1024 ∧
    1024 ≤ r.anon_size - r.anon_thp ∧
    ((1024 : ℤ) ∣ (r.anon_size - r.anon_thp) →
      get_process_weight r =
        r.overhead / (((r.anon_size - r.anon_thp : ℤ) : ℚ) / 1048576)) ∧
    (∀ s : process, Int.tdiv (s.anon_size - s.anon_thp) 1024 ≤ 0 →
      get_process_weight s = -1) := by
  have hformula : get_process_weight r =
      (r.overhead / ((Int.tdiv (r.anon_size - r.anon_thp) 1024 : ℤ) : ℚ)) * 1024 := by
    unfold get_process_weight
    exact if_neg (not_le.mpr h)
  refine ⟨hformula, le_of_tdiv_1024_pos _ h, ?_, fun s hs => weight_nonpos_rss s hs⟩
  intro hdvd
  rw [hformula, Int.tdiv_eq_ediv_of_dvd hdvd]
  have hne : ((r.anon_size - r.anon_thp : ℤ) : ℚ) ≠ 0 := by
    have := le_of_tdiv_1024_pos _ h
    intro hz
    have : (r.anon_size - r.anon_thp : ℤ) = 0 := by exact_mod_cast hz
    omega
  rw [Int.cast_div_charZero hdvd]
  field_simp
  ring

lemma add_hints_one_le (A : MetricsAdapter) (ET : ℤ) (now : ℕ) (p : ℤ)
    (l : List process) (hv : ℤ × ℤ)
    (hm : hv ∈ (add_pid_to_list A ET now p l).2) : 1 ≤ hv.2 := by
  unfold add_pid_to_list at hm
  split at hm
  · simp only [List.mem_singleton] at hm
    rw [hm]
    exact one_le_hintVal _
  · split at hm
    · dsimp only at hm
      split at hm
      · simp only [List.mem_cons, List.mem_singleton, List.not_mem_nil,
          or_false] at hm
        rcases hm with h1 | h1
        · rw [h1]
          norm_num
        · rw [h1]
          exact one_le_hintVal _
      · simp at hm
    · simp at hm

/-- C6: the scan considers exactly the records with `skip == false` and
`overhead ≥ IS_CONSIDERABLE`; under a positive threshold it returns none
exactly when every candidate has a non-positive weight denominator, and a
selected record is a candidate of maximal weight such that every candidate
strictly before it in the scan weighs strictly less (first-wins tie-break).
Scenario D: A (`overhead` 40, difference 2 MB) beats B (`overhead` 10,
difference 1 MB), with weights 20 and 10. -/
theorem C6_selector_max_weight (IC : ℚ) (hIC : 0 < IC) (l : List process) :
    (update_candidate_process IC l = none ↔
      ∀ r ∈ l, r.skip = false → IC ≤ r.overhead →
        Int.tdiv (r.anon_size - r.anon_thp) 1024 ≤ 0) ∧
    (∀ b, update_candidate_process IC l = some b →
      b.skip = false ∧ IC ≤ b.overhead ∧
      (∀ r ∈ l, r.skip = false → IC ≤ r.overhead →
        get_process_weight r ≤ get_process_weight b) ∧
      (∃ l1 l2, l = l1 ++ b :: l2 ∧
        ∀ r ∈ l1, r.skip = false → IC ≤ r.overhead →
          get_process_weight r < get_process_weight b)) ∧
    (update_candidate_process 10
        [⟨1, 0, 2097152, 0, 40, false⟩, ⟨2, 0, 1048576, 0, 10, false⟩] =
          some ⟨1, 0, 2097152, 0, 40, false⟩ ∧
      get_process_weight ⟨1, 0, 2097152, 0, 40, false⟩ = 20 ∧
      get_process_weight ⟨2, 0, 1048576, 0, 10, false⟩ = 10) := by
  have h1 : Int.tdiv ((2097152 : ℤ) - 0) 1024 = 2048 := by decide
  have h2 : Int.tdiv ((1048576 : ℤ) - 0) 1024 = 1024 := by decide
  have hwA : get_process_weight ⟨1, 0, 2097152, 0, 40, false⟩ = 20 := by
    simp only [get_process_weight, h1]
    norm_num
  have hwB : get_process_weight ⟨2, 0, 1048576, 0, 10, false⟩ = 10 := by
    simp only [get_process_weight, h2]
    norm_num
  refine ⟨?_, ?_, ?_, hwA, hwB⟩
  · rw [sel_none_iff]
    constructor
    · intro h r hr hs hov
      by_contra hrss
      push_neg at hrss
      exact absurd (h r hr ⟨hs, hov⟩)
        (not_le.mpr (weight_pos r hrss (lt_of_lt_of_le hIC hov)))
    · intro h r hr hc
      rw [weight_nonpos_rss r (h r hr hc.1 hc.2)]
      norm_num
  · intro b hb
    obtain ⟨l1, l2, hl, hcb, hw, hl1, hl2⟩ := sel_some_spec IC l b hb
    refine ⟨hcb.1, hcb.2, ?_, l1, l2, hl,
      fun r hr hs hov => hl1 r hr ⟨hs, hov⟩⟩
    intro r hr hs hov
    rw [hl] at hr
    rcases List.mem_append.mp hr with h1 | h1
    · exact le_of_lt (hl1 r h1 ⟨hs, hov⟩)
    · rcases List.mem_cons.mp h1 with h2 | h2
      · exact le_of_eq (by rw [h2])
      · exact hl2 r h2 ⟨hs, hov⟩
  · norm_num [update_candidate_process, selGo, hwA, hwB]

/-- C2: the prune pass keeps exactly the records with
`timestamp ≥ current_timestamp`; given that every pre-tick record carries an
older stamp, a PID not observed this tick has no record after the tick, while
every record inserted or updated during the tick (stamped with the current
clock) survives the tick's prune. -/
theorem C2_prune_staleness (A : MetricsAdapter) (ET : ℤ) (now : ℕ)
    (pids : List ℤ) (l : List process)
    (hts : ∀ r ∈ l, r.timestamp < now) :
    (∀ (m : List process) (r : process),
      r ∈ remove_expired_processes now m ↔ r ∈ m ∧ ¬ r.timestamp < now) ∧
    (∀ r ∈ processTick A ET now pids l, r.pid ∈ pids) ∧
    (∀ r ∈ mergeTick A ET now pids l, r ∉ l →
      r.timestamp = now ∧ r ∈ processTick A ET now pids l) := by
  refine ⟨fun m r => mem_remove_iff now m r, ?_, ?_⟩
  · intro r hr
    unfold processTick at hr
    obtain ⟨hm, hts'⟩ := (mem_remove_iff now _ r).mp hr
    by_contra hp
    exact hts' (hts r (merge_mem_pid_notin A ET now pids l r hm hp))
  · intro r hm hnl
    have hts2 : r.timestamp = now := by
      rcases merge_mem A ET now pids l r hm with h1 | h1
      · exact absurd h1 hnl
      · exact h1
    refine ⟨hts2, ?_⟩
    unfold processTick
    exact (mem_remove_iff now _ r).mpr ⟨hm, by omega⟩

/-- C3: starting from a registry with pairwise distinct PIDs, any sequence of
ticks — with arbitrary per-tick PID lists, repetitions allowed — preserves
distinctness, and observing an already-present PID leaves the PID multiset of
the registry unchanged (in-place update, no second record). -/
theorem C3_registry_uniqueness (ET : ℤ)
    (ticks : List (MetricsAdapter × List ℤ)) (now : ℕ) (l : List process)
    (h : (pidsOf l).Nodup) :
    (pidsOf (runTicks ET ticks now l)).Nodup ∧
    (∀ (A : MetricsAdapter) (now' : ℕ) (p : ℤ) (l' : List process),
      p ∈ pidsOf l' →
      pidsOf (add_pid_to_list A ET now' p l').1 = pidsOf l') :=
  ⟨runTicks_nodup ET ticks now l h,
    fun A now' p l' hp => add_pids_present A ET now' p l' hp⟩

/-- C4: observing a PID absent from the registry either fails allocation (no
change, no hint), fails the protocol (the fresh record is discarded, not
inserted, and no hint is emitted), or succeeds, in which case the refreshed
record is inserted at the head and exactly the hints `1000` and
`max(1, floor(overhead))` are emitted in that order. -/
theorem C4_new_pid_protocol (A : MetricsAdapter) (ET p : ℤ) (now : ℕ)
    (l : List process) (habs : ∀ r ∈ l, r.pid ≠ p) :
    (A.allocOk p = false → add_pid_to_list A ET now p l = (l, [])) ∧
    ((update_process_stats ET p now (A.thp p) (A.ovh p) initProc).1 = false →
      add_pid_to_list A ET now p l = (l, [])) ∧
    (A.allocOk p = true →
      (update_process_stats ET p now (A.thp p) (A.ovh p) initProc).1 = true →
      add_pid_to_list A ET now p l =
        ((update_process_stats ET p now (A.thp p) (A.ovh p) initProc).2 :: l,
         [(p, 1000),
          (p, max 1 ⌊(update_process_stats ET p now (A.thp p) (A.ovh p)
            initProc).2.overhead⌋)])) := by
  have hf : l.find? (fun r => r.pid == p) = none :=
    (find?_pid_eq_none p l).mpr (fun hm => by
      obtain ⟨r, hr, hrp⟩ := List.mem_map.mp hm
      exact habs r hr hrp)
  unfold add_pid_to_list
  rw [hf]
  refine ⟨?_, ?_, ?_⟩
  · intro hA
    simp [hA]
  · intro hres
    by_cases hA : A.allocOk p <;> simp [hA, hres]
  · intro hA hres
    simp [hA, hres, hintVal_eq_max_one_floor]

/-- C5: observing a PID already present in the registry emits exactly one
hint, `max(1, floor(overhead))` of the freshly updated record, regardless of
the protocol's outcome; every hint the core ever emits is an integer `≥ 1`;
and the C truncating cast agrees with `floor` under the `max(1, ·)` clamp. -/
theorem C5_existing_pid_hint (A : MetricsAdapter) (ET p : ℤ) (now : ℕ)
    (l : List process) (r0 : process)
    (hfound : l.find? (fun r => r.pid == p) = some r0) :
    ((add_pid_to_list A ET now p l).2 =
      [(p, max 1 ⌊((update_process_stats ET p now (A.thp p) (A.ovh p)
        r0).2).overhead⌋)]) ∧
    (∀ (A' : MetricsAdapter) (ET' p' : ℤ) (now' : ℕ) (l' : List process)
      (hv : ℤ × ℤ), hv ∈ (add_pid_to_list A' ET' now' p' l').2 → 1 ≤ hv.2) ∧
    (∀ q : ℚ, max 1 (ratTrunc q) = max 1 ⌊q⌋) := by
  refine ⟨?_, fun A' ET' p' now' l' hv hm =>
    add_hints_one_le A' ET' now' p' l' hv hm, fun q => hintVal_eq_max_one_floor q⟩
  unfold add_pid_to_list
  rw [hfound]
  simp [hintVal_eq_max_one_floor]

theorem C1_eligibility_gate_witness :
    (((update_process_stats 10000 100 0 (some (20000, 0)) (some 5) initProc).1
          = true ∧
        (update_process_stats 10000 100 0 (some (20000, 0)) (some 5)
          initProc).2.skip = false) ↔
      ((∃ sz tp, (some ((20000 : ℤ), (0 : ℤ))) = some (sz, tp) ∧
        (10000 : ℤ) < sz) ∧ (some (5 : ℚ)) ≠ none)) ∧
    ((update_process_stats 10000 100 0 (some (20000, 0)) (some 5)
        initProc).2.skip =
      !(update_process_stats 10000 100 0 (some (20000, 0)) (some 5)
        initProc).1) ∧
    ((update_process_stats 10000 100 0 (some (20000, 0)) (some 5)
        initProc).2.skip = false →
      (10000 : ℤ) < (update_process_stats 10000 100 0 (some (20000, 0))
        (some 5) initProc).2.anon_size) ∧
    (∀ (IC : ℚ) (l : List process) (b : process),
      update_candidate_process IC l = some b → b.skip = false) :=
  C1_eligibility_gate 10000 100 0 (some (20000, 0)) (some 5) initProc

theorem C2_prune_staleness_witness :
    (∀ r ∈ ([⟨100, 5, 0, 0, 0, false⟩] : List process), r.timestamp < 6) ∧
    ((∀ (m : List process) (r : process),
      r ∈ remove_expired_processes 6 m ↔ r ∈ m ∧ ¬ r.timestamp < 6) ∧
    (∀ r ∈ processTick stubAdapter 0 6 [] [⟨100, 5, 0, 0, 0, false⟩],
      r.pid ∈ ([] : List ℤ)) ∧
    (∀ r ∈ mergeTick stubAdapter 0 6 [] [⟨100, 5, 0, 0, 0, false⟩],
      r ∉ ([⟨100, 5, 0, 0, 0, false⟩] : List process) →
      r.timestamp = 6 ∧
        r ∈ processTick stubAdapter 0 6 [] [⟨100, 5, 0, 0, 0, false⟩])) :=
  ⟨by decide,
    C2_prune_staleness stubAdapter 0 6 [] [⟨100, 5, 0, 0, 0, false⟩] (by decide)⟩

theorem C3_registry_uniqueness_witness :
    (pidsOf ([] : List process)).Nodup ∧
    ((pidsOf (runTicks 0 [] 0 [])).Nodup ∧
    (∀ (A : MetricsAdapter) (now' : ℕ) (p : ℤ) (l' : List process),
      p ∈ pidsOf l' →
      pidsOf (add_pid_to_list A 0 now' p l').1 = pidsOf l')) :=
  ⟨by decide, C3_registry_uniqueness 0 [] 0 [] (by decide)⟩

theorem C4_new_pid_protocol_witness :
    (∀ r ∈ ([] : List process), r.pid ≠ 100) ∧
    ((okAdapter.allocOk 100 = false →
      add_pid_to_list okAdapter 10000 0 100 [] = ([], [])) ∧
    ((update_process_stats 10000 100 0 (okAdapter.thp 100) (okAdapter.ovh 100)
        initProc).1 = false →
      add_pid_to_list okAdapter 10000 0 100 [] = ([], [])) ∧
    (okAdapter.allocOk 100 = true →
      (update_process_stats 10000 100 0 (okAdapter.thp 100) (okAdapter.ovh 100)
        initProc).1 = true →
      add_pid_to_list okAdapter 10000 0 100 [] =
        ((update_process_stats 10000 100 0 (okAdapter.thp 100)
          (okAdapter.ovh 100) initProc).2 :: [],
         [(100, 1000),
          (100, max 1 ⌊(update_process_stats 10000 100 0 (okAdapter.thp 100)
            (okAdapter.ovh 100) initProc).2.overhead⌋)]))) :=
  ⟨by decide, C4_new_pid_protocol okAdapter 10000 100 0 [] (by decide)⟩

theorem C5_existing_pid_hint_witness :
    (([⟨100, 0, 1, 1, 7, true⟩] : List process).find?
      (fun r => r.pid == 100) = some ⟨100, 0, 1, 1, 7, true⟩) ∧
    (((add_pid_to_list okAdapter 10000 3 100 [⟨100, 0, 1, 1, 7, true⟩]).2 =
      [(100, max 1 ⌊((update_process_stats 10000 100 3 (okAdapter.thp 100)
        (okAdapter.ovh 100) ⟨100, 0, 1, 1, 7, true⟩).2).overhead⌋)]) ∧
    (∀ (A' : MetricsAdapter) (ET' p' : ℤ) (now' : ℕ) (l' : List process)
      (hv : ℤ × ℤ), hv ∈ (add_pid_to_list A' ET' now' p' l').2 → 1 ≤ hv.2) ∧
    (∀ q : ℚ, max 1 (ratTrunc q) = max 1 ⌊q⌋)) :=
  ⟨rfl, C5_existing_pid_hint okAdapter 10000 100 3 [⟨100, 0, 1, 1, 7, true⟩]
    ⟨100, 0, 1, 1, 7, true⟩ rfl⟩

theorem C6_selector_max_weight_witness :
    (0 : ℚ) < 10 ∧
    ((update_candidate_process 10 ([] : List process) = none ↔
      ∀ r ∈ ([] : List process), r.skip = false → (10 : ℚ) ≤ r.overhead →
        Int.tdiv (r.anon_size - r.anon_thp) 1024 ≤ 0) ∧
    (∀ b, update_candidate_process 10 ([] : List process) = some b →
      b.skip = false ∧ (10 : ℚ) ≤ b.overhead ∧
      (∀ r ∈ ([] : List process), r.skip = false → (10 : ℚ) ≤ r.overhead →
        get_process_weight r ≤ get_process_weight b) ∧
      (∃ l1 l2, ([] : List process) = l1 ++ b :: l2 ∧
        ∀ r ∈ l1, r.skip = false → (10 : ℚ) ≤ r.overhead →
          get_process_weight r < get_process_weight b)) ∧
    (update_candidate_process 10
        [⟨1, 0, 2097152, 0, 40, false⟩, ⟨2, 0, 1048576, 0, 10, false⟩] =
          some ⟨1, 0, 2097152, 0, 40, false⟩ ∧
      get_process_weight ⟨1, 0, 2097152, 0, 40, false⟩ = 20 ∧
      get_process_weight ⟨2, 0, 1048576, 0, 10, false⟩ = 10)) :=
  ⟨by norm_num, C6_selector_max_weight 10 (by norm_num) []⟩

theorem C8_amended_truncated_weight_witness :
    (0 : ℤ) < Int.tdiv ((⟨1, 0, 2048, 0, 6, false⟩ : process).anon_size -
        (⟨1, 0, 2048, 0, 6, false⟩ : process).anon_thp) 1024 ∧
    (get_process_weight ⟨1, 0, 2048, 0, 6, false⟩ =
      ((⟨1, 0, 2048, 0, 6, false⟩ : process).overhead /
        ((Int.tdiv ((⟨1, 0, 2048, 0, 6, false⟩ : process).anon_size -
          (⟨1, 0, 2048, 0, 6, false⟩ : process).anon_thp) 1024 : ℤ) : ℚ)) *
        1024 ∧
      1024 ≤ (⟨1, 0, 2048, 0, 6, false⟩ : process).anon_size -
        (⟨1, 0, 2048, 0, 6, false⟩ : process).anon_thp ∧
      ((1024 : ℤ) ∣ ((⟨1, 0, 2048, 0, 6, false⟩ : process).anon_size -
        (⟨1, 0, 2048, 0, 6, false⟩ : process).anon_thp) →
        get_process_weight ⟨1, 0, 2048, 0, 6, false⟩ =
          (⟨1, 0, 2048, 0, 6, false⟩ : process).overhead /
            ((((⟨1, 0, 2048, 0, 6, false⟩ : process).anon_size -
              (⟨1, 0, 2048, 0, 6, false⟩ : process).anon_thp : ℤ) : ℚ) /
              1048576)) ∧
      (∀ s : process, Int.tdiv (s.anon_size - s.anon_thp) 1024 ≤ 0 →
        get_process_weight s = -1)) :=
  ⟨by decide, C8_amended_truncated_weight ⟨1, 0, 2048, 0, 6, false⟩ (by decide)⟩

theorem C9_malformed_metrics_guarded_witness :
    get_process_weight ⟨1, 0, 100, 200, 50, false⟩ = -1 ∧
    (⟨2, 0, 2097152, 0, 40, false⟩ : process).anon_thp <
      (⟨2, 0, 2097152, 0, 40, false⟩ : process).anon_size :=
  ⟨(C9_malformed_metrics_guarded 10 [⟨2, 0, 2097152, 0, 40, false⟩]
      ⟨1, 0, 100, 200, 50, false⟩ ⟨2, 0, 2097152, 0, 40, false⟩).1 (by decide),
   (C9_malformed_metrics_guarded 10 [⟨2, 0, 2097152, 0, 40, false⟩]
      ⟨1, 0, 100, 200, 50, false⟩ ⟨2, 0, 2097152, 0, 40, false⟩).2
      (by
        have h1 : Int.tdiv (2097152 : ℤ) 1024 = 2048 := by decide
        norm_num [update_candidate_process, selGo, get_process_weight, h1])⟩

theorem C10_no_nonpositive_weight_selected_witness :
    update_candidate_process 10 [⟨1, 0, 2097152, 0, 40, false⟩] =
      some ⟨1, 0, 2097152, 0, 40, false⟩ ∧
    (0 < get_process_weight ⟨1, 0, 2097152, 0, 40, false⟩ ∧
    (∃ r ∈ ([⟨1, 0, 2097152, 0, 40, false⟩] : List process),
      isCandidate 10 r ∧ 0 < get_process_weight r) ∧
    (∀ l' : List process,
      (∀ r ∈ l', isCandidate 10 r → get_process_weight r ≤ 0) →
      update_candidate_process 10 l' = none)) :=
  ⟨by
    have h1 : Int.tdiv (2097152 : ℤ) 1024 = 2048 := by decide
    norm_num [update_candidate_process, selGo, get_process_weight, h1],
   C10_no_nonpositive_weight_selected 10 [⟨1, 0, 2097152, 0, 40, false⟩]
    ⟨1, 0, 2097152, 0, 40, false⟩
    (by
      have h1 : Int.tdiv (2097152 : ℤ) 1024 = 2048 := by decide
      norm_num [update_candidate_process, selGo, get_process_weight, h1])⟩
